import Mathlib

/-!
Verification development for the Confluence storage synchronization core
(storage-sync-manager.ts and confluence-client.ts).

The development shallowly embeds:
  * the reversible table formatter (formatTableXhtml / unformatTableXhtml),
    modelled pass by pass: every String.replace call with a global regular
    expression becomes one left-to-right scan over the character list;
  * the sync manager operations (downloadBody, uploadBody, downloadAttachments,
    uploadAttachments) as pure state transformers over an explicit remote state
    and local cache state, with SHA-256 kept abstract as a hash-function
    parameter and remote mutation calls recorded explicitly;
  * the structured log writer masking (maskSensitive / writeLog) over a JSON
    value type.
-/

namespace ConfluenceSync

/-! ### Character-level regular expression passes -/

/-- Whitespace characters of the JavaScript regular expression class \s
    (restricted to the ASCII whitespace characters, which are the only ones
    the synchronized markup contains). -/
def isJsWs (c : Char) : Bool :=
  c = ' ' || c = '\n' || c = '\t' || c = '\r' || c = '\x0b' || c = '\x0c'

/-- Tests whether the character list s starts with the literal pattern p. -/
def leadsWith : List Char → List Char → Bool
  | [], _ => true
  | _ :: _, [] => false
  | p :: ps, c :: cs => p = c && leadsWith ps cs

/-- Drops the longest run of whitespace characters, the effect of a greedy
    \s* at the current position when the continuation cannot start with
    whitespace (every continuation in this code starts with a < character). -/
def dropWs : List Char → List Char
  | [] => []
  | c :: cs => if isJsWs c then dropWs cs else c :: cs

/-- A matcher tries a regular expression at the start of the input and, on
    success, returns the replacement text and the remainder after the match. -/
def Matcher : Type := List Char → Option (List Char × List Char)

/-- One global match-and-replace pass, mirroring a single String.replace call
    with a global regular expression: scan left to right, replace each
    non-overlapping match, resume after the match. Fuel bounds the recursion;
    every matcher of this file consumes at least one character, so fuel equal
    to the input length is sufficient. -/
def gsub (m : Matcher) : Nat → List Char → List Char
  | 0, s => s
  | _ + 1, [] => []
  | fuel + 1, c :: cs =>
    match m (c :: cs) with
    | some (r, rest) => r ++ gsub m fuel rest
    | none => c :: gsub m fuel cs

/-- Runs one global replacement pass over the whole input. -/
def pass (m : Matcher) (s : List Char) : List Char := gsub m s.length s

/-- Matcher for a literal pattern with a literal replacement. -/
def litM (p r : List Char) : Matcher := fun s =>
  if leadsWith p s then some (r, List.drop p.length s) else none

/-- Global replacement of a literal pattern by a literal replacement. -/
def replaceLit (p r : String) (s : List Char) : List Char :=
  pass (litM p.toList r.toList) s

/-- Matcher for the pattern LIT followed by a newline and a greedy whitespace
    run, replaced by LIT alone (the unformat passes that strip whitespace
    after an opening tag). -/
def litNlWsM (p : String) : Matcher := fun s =>
  if leadsWith p.toList s then
    match List.drop p.toList.length s with
    | '\n' :: rest => some (p.toList, dropWs rest)
    | _ => none
  else none

/-- Matcher for a newline, a greedy whitespace run and then LIT, replaced by
    LIT alone (the unformat passes that strip whitespace before a closing
    tag). -/
def nlWsLitM (p : String) : Matcher := fun s =>
  match s with
  | '\n' :: rest =>
    let rest1 := dropWs rest
    if leadsWith p.toList rest1 then
      some (p.toList, List.drop p.toList.length rest1)
    else none
  | _ => none

/-- Matcher for LIT1, newline, greedy whitespace, LIT2 replaced by the two
    literals made adjacent (the unformat passes for tag combinations). -/
def litNlLitM (a b : String) : Matcher := fun s =>
  if leadsWith a.toList s then
    match List.drop a.toList.length s with
    | '\n' :: rest =>
      let rest1 := dropWs rest
      if leadsWith b.toList rest1 then
        some (a.toList ++ b.toList, List.drop b.toList.length rest1)
      else none
    | _ => none
  else none

/-- Parses the regular expression <table[^>]*> at the start of the input,
    returning the matched tag text and the remainder. -/
def tableTagP (s : List Char) : Option (List Char × List Char) :=
  if leadsWith "<table".toList s then
    let rest0 := List.drop 6 s
    let attrs := rest0.takeWhile (fun c => c ≠ '>')
    match List.drop attrs.length rest0 with
    | '>' :: rest1 => some ("<table".toList ++ attrs ++ ['>'], rest1)
    | _ => none
  else none

/-- Format pass 1: a table opening tag gets a trailing newline. -/
def fmtTableOpenM : Matcher := fun s =>
  (tableTagP s).map (fun pr => (pr.1 ++ ['\n'], pr.2))

/-- Unformat pass 1: the newline and whitespace after a table opening tag are
    removed. -/
def unfmtTableOpenM : Matcher := fun s =>
  match tableTagP s with
  | some (tag, rest) =>
    match rest with
    | '\n' :: rest1 => some (tag, dropWs rest1)
    | _ => none
  | none => none

/-- Format pass 10 matcher family: a closing cell tag directly followed by an
    opening cell tag whose next character is whitespace or the closing angle
    bracket. -/
def fmtCellPairM (a b : String) : Matcher := fun s =>
  let p := ("</" ++ a ++ "><" ++ b).toList
  if leadsWith p s then
    match List.drop p.length s with
    | c :: rest =>
      if isJsWs c || c = '>' then
        some (("</" ++ a ++ ">\n    <" ++ b).toList ++ [c], rest)
      else none
    | [] => none
  else none

/-- Unformat pass 10 matcher family: closing cell tag, newline, whitespace,
    opening cell tag followed by whitespace or the closing angle bracket. -/
def unfmtCellPairM (a b : String) : Matcher := fun s =>
  let p1 := ("</" ++ a ++ ">").toList
  if leadsWith p1 s then
    match List.drop p1.length s with
    | '\n' :: rest =>
      let rest1 := dropWs rest
      let p2 := ("<" ++ b).toList
      if leadsWith p2 rest1 then
        match List.drop p2.length rest1 with
        | c :: rest2 =>
          if isJsWs c || c = '>' then
            some (("</" ++ a ++ "><" ++ b).toList ++ [c], rest2)
          else none
        | [] => none
      else none
    | _ => none
  else none

/-- Parses the group (p|h[1-6]|div [^>]+) followed by the closing angle
    bracket of the tag, returning the group text and the remainder after the
    bracket. The alternatives start with distinct characters, so JavaScript
    alternation order does not matter here. -/
def blockOpenNameP (s : List Char) : Option (List Char × List Char) :=
  match s with
  | 'p' :: '>' :: rest => some (['p'], rest)
  | 'h' :: d :: '>' :: rest =>
    if '1' ≤ d && d ≤ '6' then some (['h', d], rest) else none
  | _ =>
    if leadsWith "div ".toList s then
      let rest0 := List.drop 4 s
      let run := rest0.takeWhile (fun c => c ≠ '>')
      if run.length = 0 then none
      else
        match List.drop run.length rest0 with
        | '>' :: rest1 => some ("div ".toList ++ run, rest1)
        | _ => none
    else none

/-- Parses the group (p|h[1-6]|div) with no constraint on what follows. -/
def blockCloseNameP (s : List Char) : Option (List Char × List Char) :=
  match s with
  | 'p' :: rest => some (['p'], rest)
  | 'h' :: d :: rest =>
    if '1' ≤ d && d ≤ '6' then some (['h', d], rest) else none
  | 'd' :: 'i' :: 'v' :: rest => some ("div".toList, rest)
  | _ => none

/-- Parses the group ((?:li|ul)(?: [^>]+)?) followed by the closing angle
    bracket of the tag. The greedy optional attribute part is tried first and
    the engine falls back to the empty alternative exactly when the longer
    form cannot complete. -/
def listOpenNameP (s : List Char) : Option (List Char × List Char) :=
  let name? : Option (List Char × List Char) :=
    match s with
    | 'l' :: 'i' :: rest => some (['l', 'i'], rest)
    | 'u' :: 'l' :: rest => some (['u', 'l'], rest)
    | _ => none
  match name? with
  | none => none
  | some (nm, rest) =>
    match rest with
    | ' ' :: rest1 =>
      let run := rest1.takeWhile (fun c => c ≠ '>')
      if run.length = 0 then none
      else
        match List.drop run.length rest1 with
        | '>' :: rest2 => some (nm ++ ' ' :: run, rest2)
        | _ => none
    | '>' :: rest1 => some (nm, rest1)
    | _ => none

/-- Parses the group (li|ul). -/
def listCloseNameP (s : List Char) : Option (List Char × List Char) :=
  match s with
  | 'l' :: 'i' :: rest => some (['l', 'i'], rest)
  | 'u' :: 'l' :: rest => some (['u', 'l'], rest)
  | _ => none

/-- Parses the group (td|th). -/
def cellNameP (s : List Char) : Option (List Char × List Char) :=
  match s with
  | 't' :: 'd' :: rest => some (['t', 'd'], rest)
  | 't' :: 'h' :: rest => some (['t', 'h'], rest)
  | _ => none

/-- Format pass 12 first rule: a closing angle bracket directly followed by a
    block opening tag gets a newline and indent in between. -/
def fmtBlockOpenM (nameP : List Char → Option (List Char × List Char)) :
    Matcher := fun s =>
  match s with
  | '>' :: '<' :: rest =>
    match nameP rest with
    | some (g, rest1) =>
      some ('>' :: '\n' :: "      <".toList ++ g ++ ['>'], rest1)
    | none => none
  | _ => none

/-- Unformat pass 12 first rule: the newline and indent between a closing
    angle bracket and a block opening tag are removed. -/
def unfmtBlockOpenM (nameP : List Char → Option (List Char × List Char)) :
    Matcher := fun s =>
  match s with
  | '>' :: '\n' :: rest =>
    match dropWs rest with
    | '<' :: rest1 =>
      match nameP rest1 with
      | some (g, rest2) => some ('>' :: '<' :: g ++ ['>'], rest2)
      | none => none
    | _ => none
  | _ => none

/-- Format pass 12 second rule: a block closing tag directly followed by a
    cell closing tag gets a newline and indent in between. -/
def fmtBlockCloseM : Matcher := fun s =>
  match s with
  | '<' :: '/' :: rest =>
    match blockCloseNameP rest with
    | some (g1, rest1) =>
      match rest1 with
      | '>' :: '<' :: '/' :: rest2 =>
        match cellNameP rest2 with
        | some (g2, rest3) =>
          match rest3 with
          | '>' :: rest4 =>
            some ("</".toList ++ g1 ++ ">\n    </".toList ++ g2 ++ ['>'],
              rest4)
          | _ => none
        | none => none
      | _ => none
    | none => none
  | _ => none

/-- Unformat pass 12 second rule. -/
def unfmtBlockCloseM : Matcher := fun s =>
  match s with
  | '<' :: '/' :: rest =>
    match blockCloseNameP rest with
    | some (g1, rest1) =>
      match rest1 with
      | '>' :: '\n' :: rest2 =>
        match dropWs rest2 with
        | '<' :: '/' :: rest3 =>
          match cellNameP rest3 with
          | some (g2, rest4) =>
            match rest4 with
            | '>' :: rest5 =>
              some ("</".toList ++ g1 ++ "></".toList ++ g2 ++ ['>'], rest5)
            | _ => none
          | none => none
        | _ => none
      | _ => none
    | none => none
  | _ => none

/-- Format pass 13 second rule: a list closing tag directly followed by any
    closing tag opener gets a newline and indent in between. The match
    consumes the trailing tag opener, which the replacement re-emits. -/
def fmtListCloseM : Matcher := fun s =>
  match s with
  | '<' :: '/' :: rest =>
    match listCloseNameP rest with
    | some (g, rest1) =>
      match rest1 with
      | '>' :: '<' :: '/' :: rest2 =>
        some ("</".toList ++ g ++ ">\n    </".toList, rest2)
      | _ => none
    | none => none
  | _ => none

/-- Unformat pass 13 second rule. -/
def unfmtListCloseM : Matcher := fun s =>
  match s with
  | '<' :: '/' :: rest =>
    match listCloseNameP rest with
    | some (g, rest1) =>
      match rest1 with
      | '>' :: '\n' :: rest2 =>
        match dropWs rest2 with
        | '<' :: '/' :: rest3 =>
          some ("</".toList ++ g ++ "></".toList, rest3)
        | _ => none
      | _ => none
    | none => none
  | _ => none

/-! ### The formatter (formatTableXhtml / unformatTableXhtml) -/

/-- The format pipeline over character lists, one pass per String.replace
    call of formatTableXhtml, in source order. -/
def formatChars (s0 : List Char) : List Char :=
  let s := pass fmtTableOpenM s0
  let s := replaceLit "<tbody>" "<tbody>\n  " s
  let s := replaceLit "<thead>" "<thead>\n  " s
  let s := replaceLit "<tfoot>" "<tfoot>\n  " s
  let s := replaceLit "</tbody>" "\n</tbody>" s
  let s := replaceLit "</thead>" "\n</thead>" s
  let s := replaceLit "</tfoot>" "\n</tfoot>" s
  let s := replaceLit "</thead><tbody>" "</thead>\n<tbody>" s
  let s := replaceLit "</tbody><tfoot>" "</tbody>\n<tfoot>" s
  let s := replaceLit "</tfoot><tbody>" "</tfoot>\n<tbody>" s
  let s := replaceLit "</tbody></table>" "</tbody>\n</table>" s
  let s := replaceLit "</thead></table>" "</thead>\n</table>" s
  let s := replaceLit "</tfoot></table>" "</tfoot>\n</table>" s
  let s := replaceLit "</table>" "</table>\n" s
  let s := replaceLit "</tr><tr>" "</tr>\n  <tr>" s
  let s := replaceLit "<tr>" "<tr>\n    " s
  let s := replaceLit "</tr>" "\n  </tr>" s
  let s := pass (fmtCellPairM "td" "td") s
  let s := pass (fmtCellPairM "th" "th") s
  let s := pass (fmtCellPairM "td" "th") s
  let s := pass (fmtCellPairM "th" "td") s
  let s := replaceLit ">\n<colgroup>" ">\n<colgroup>" s
  let s := replaceLit "</colgroup><tbody>" "</colgroup>\n<tbody>" s
  let s := replaceLit "</colgroup><thead>" "</colgroup>\n<thead>" s
  let s := pass (fmtBlockOpenM blockOpenNameP) s
  let s := pass fmtBlockCloseM s
  let s := pass (fmtBlockOpenM listOpenNameP) s
  let s := pass fmtListCloseM s
  s

/-- Embedding of formatTableXhtml: adds hierarchical newlines and indentation
    to table markup. -/
def formatTableXhtml (s : String) : String :=
  String.mk (formatChars s.toList)

/-- The unformat pipeline over character lists, one pass per String.replace
    call of unformatTableXhtml, in source order. -/
def unformatChars (s0 : List Char) : List Char :=
  let s := pass unfmtTableOpenM s0
  let s := pass (litNlWsM "<tbody>") s
  let s := pass (litNlWsM "<thead>") s
  let s := pass (litNlWsM "<tfoot>") s
  let s := pass (nlWsLitM "</tbody>") s
  let s := pass (nlWsLitM "</thead>") s
  let s := pass (nlWsLitM "</tfoot>") s
  let s := pass (litNlLitM "</thead>" "<tbody>") s
  let s := pass (litNlLitM "</tbody>" "<tfoot>") s
  let s := pass (litNlLitM "</tfoot>" "<tbody>") s
  let s := pass (litNlLitM "</tbody>" "</table>") s
  let s := pass (litNlLitM "</thead>" "</table>") s
  let s := pass (litNlLitM "</tfoot>" "</table>") s
  let s := replaceLit "</table>\n" "</table>" s
  let s := pass (litNlLitM "</tr>" "<tr>") s
  let s := pass (litNlWsM "<tr>") s
  let s := pass (nlWsLitM "</tr>") s
  let s := pass (unfmtCellPairM "td" "td") s
  let s := pass (unfmtCellPairM "th" "th") s
  let s := pass (unfmtCellPairM "td" "th") s
  let s := pass (unfmtCellPairM "th" "td") s
  let s := replaceLit ">\n<colgroup>" "><colgroup>" s
  let s := pass (litNlLitM "</colgroup>" "<tbody>") s
  let s := pass (litNlLitM "</colgroup>" "<thead>") s
  let s := pass (unfmtBlockOpenM blockOpenNameP) s
  let s := pass unfmtBlockCloseM s
  let s := pass (unfmtBlockOpenM listOpenNameP) s
  let s := pass unfmtListCloseM s
  s

/-- Embedding of unformatTableXhtml: removes the newlines and indentation the
    formatter inserted. -/
def unformatTableXhtml (s : String) : String :=
  String.mk (unformatChars s.toList)

/-! ### Content addressing

SHA-256 from node:crypto is an external primitive, so the hash is kept
abstract: every sync operation takes the hash function as a parameter.
Properties that need distinct hashes for distinct inputs state that as an
explicit hypothesis and discharge it in witnesses with a concrete injective
function. -/

/-- Abstract content hashing over text and over raw bytes, standing for
    computeSha256 which accepts both a string and a Buffer. -/
structure Sha256 where
  ofString : String → String
  ofBytes : List Nat → String

/-! ### Data model -/

/-- Embedding of AttachmentMeta: one tracked attachment in the metadata
    record. Timestamps are abstract clock values. -/
structure AttachmentMeta where
  id : String
  title : String
  version : Nat
  downloadedAt : Option Nat
  storagePath : String
  sha256 : String
  mediaType : String
  fileSize : Nat
  lastUploadedAt : Option Nat
deriving DecidableEq, Repr

/-- Embedding of PageMeta: the per-page metadata record persisted in
    meta.json. -/
structure PageMeta where
  pageId : String
  title : String
  version : Nat
  downloadedAt : Nat
  storagePath : String
  storageSha256 : String
  lastUploadedAt : Option Nat
  lastAttachmentScanAt : Option Nat
  attachments : List AttachmentMeta
deriving DecidableEq, Repr

/-- Embedding of AttachmentInfo, the attachment listing entry returned by the
    client. The version field is declared optional in the TypeScript types, as
    forced by its uses of the form info.version with a fallback; the
    getAttachments response mapping never sets it. -/
structure AttachmentInfo where
  id : String
  title : String
  version : Option Nat
  downloadUrl : String
  fileSize : Nat
  mediaType : String
deriving DecidableEq, Repr

/-- One attachment as it exists on the remote server, including its actual
    remote revision number and content bytes. -/
structure RemoteAttachment where
  id : String
  title : String
  version : Nat
  downloadLink : String
  fileSize : Nat
  mediaType : String
  bytes : List Nat
deriving DecidableEq, Repr

/-- The remote page: title, revision number and storage-format body. -/
structure RemotePage where
  title : String
  version : Nat
  storageValue : String
deriving DecidableEq, Repr

/-- The remote server state a sync call runs against. -/
structure RemoteState where
  page : RemotePage
  attachments : List RemoteAttachment
deriving DecidableEq, Repr

/-- The local cache state: metadata record, body file content and attachment
    files keyed by title. An absent file is an absent entry. -/
structure LocalState where
  meta : Option PageMeta
  pageFile : Option String
  attachmentFiles : List (String × List Nat)
deriving DecidableEq, Repr

/-- Embedding of sanitizePathSegment: characters illegal in path segments are
    replaced by a dash. -/
def sanitizePathSegment (s : String) : String :=
  String.mk (s.toList.map (fun c =>
    if c = '<' || c = '>' || c = ':' || c = '"' || c = '/' || c = '\\' ||
        c = '|' || c = '?' || c = '*' then '-' else c))

/-- Path of the body file for a page, per preparePaths. -/
def pagePathOf (pageId : String) : String :=
  sanitizePathSegment pageId ++ "/page.xhtml"

/-- Path of an attachment file for a page, per preparePaths. -/
def attachmentPathOf (pageId title : String) : String :=
  sanitizePathSegment pageId ++ "/attachments/" ++ title

/-- Writes a file: replaces the entry of that name or adds one. -/
def fsWrite (files : List (String × List Nat)) (name : String)
    (data : List Nat) : List (String × List Nat) :=
  (name, data) :: files.filter (fun kv => kv.1 ≠ name)

/-- Error codes of the ConfluenceClientError values thrown by the sync
    manager: metaNotFound is META_NOT_FOUND, pageFileNotFound is
    PAGE_FILE_NOT_FOUND, versionConflict is VERSION_CONFLICT and
    attachmentFileNotFound is ATTACHMENT_FILE_NOT_FOUND. -/
inductive ErrCode
  | metaNotFound
  | pageFileNotFound
  | versionConflict
  | attachmentFileNotFound
deriving DecidableEq, Repr

/-! ### Body download -/

/-- Result of downloadBody (the fields the claims are about). -/
structure BodyDownloadResult where
  success : Bool
  skipped : Bool
deriving DecidableEq, Repr

/-- Embedding of downloadBody on the success path: fetch the page, decide the
    skip by comparing stored version and stored hash against the hash of the
    raw storage content, write the formatted text when not skipping, and
    rebuild the metadata record. -/
def downloadBody (sha : Sha256) (now : Nat) (pageId : String)
    (remote : RemoteState) (loc : LocalState) :
    LocalState × BodyDownloadResult :=
  let page := remote.page
  let storageContent := page.storageValue
  let storageSha := sha.ofString storageContent
  let shouldSkip : Bool :=
    match loc.meta with
    | some m => m.version == page.version && m.storageSha256 == storageSha
    | none => false
  let pageFile1 :=
    if shouldSkip then loc.pageFile
    else some (formatTableXhtml storageContent)
  let nextMeta : PageMeta :=
    { pageId := pageId
      title := page.title
      version := page.version
      downloadedAt := now
      storagePath := pagePathOf pageId
      storageSha256 :=
        if shouldSkip then
          match loc.meta with
          | some m => m.storageSha256
          | none => storageSha
        else storageSha
      lastUploadedAt := loc.meta.bind (fun m => m.lastUploadedAt)
      lastAttachmentScanAt := loc.meta.bind (fun m => m.lastAttachmentScanAt)
      attachments :=
        match loc.meta with
        | some m => m.attachments
        | none => [] }
  ({ loc with meta := some nextMeta, pageFile := pageFile1 },
   { success := true, skipped := shouldSkip })

/-! ### Body upload -/

/-- One call to the updatePage endpoint, with the arguments the sync manager
    passes: current remote title, collapsed storage text and the expected
    remote version. -/
structure UpdatePageCall where
  title : String
  content : String
  version : Nat
deriving DecidableEq, Repr

deriving instance DecidableEq for Except

/-- Outcome of uploadBody: the thrown error or the pageUpdated flag, the
    final local state, the final remote state, and the recorded calls to the
    updatePage endpoint. -/
structure BodyUploadOutcome where
  result : Except ErrCode Bool
  loc : LocalState
  remote : RemoteState
  updateCalls : List UpdatePageCall
deriving DecidableEq, Repr

/-- Embedding of uploadBody: require metadata and body file, fetch the remote
    page, fail on a version mismatch, otherwise collapse the local body,
    compare the hash of the formatted text with the stored hash and update
    the remote page only when they differ. -/
def uploadBody (sha : Sha256) (now : Nat) (pageId : String)
    (remote : RemoteState) (loc : LocalState) : BodyUploadOutcome :=
  match loc.meta with
  | none =>
    { result := .error .metaNotFound, loc := loc, remote := remote,
      updateCalls := [] }
  | some meta =>
    match loc.pageFile with
    | none =>
      { result := .error .pageFileNotFound, loc := loc, remote := remote,
        updateCalls := [] }
    | some formattedContent =>
      let remotePage := remote.page
      if remotePage.version ≠ meta.version then
        { result := .error .versionConflict, loc := loc, remote := remote,
          updateCalls := [] }
      else
        let storageContent := unformatTableXhtml formattedContent
        let localSha := sha.ofString formattedContent
        let pageUpdated : Bool := localSha != meta.storageSha256
        if pageUpdated then
          let newVersion := remotePage.version + 1
          let updatedMeta : PageMeta :=
            { meta with
                version := newVersion
                storageSha256 := localSha
                downloadedAt := now
                storagePath := pagePathOf pageId
                lastUploadedAt := some now }
          { result := .ok true
            loc := { loc with meta := some updatedMeta }
            remote :=
              { remote with
                  page :=
                    { title := remotePage.title
                      version := newVersion
                      storageValue := storageContent } }
            updateCalls :=
              [{ title := remotePage.title, content := storageContent,
                 version := remotePage.version }] }
        else
          { result := .ok false, loc := { loc with meta := some meta },
            remote := remote, updateCalls := [] }

/-! ### Attachment listing and download -/

/-- Embedding of the getAttachments response mapping: each listed attachment
    is mapped to id, title, downloadUrl, fileSize and mediaType. The mapping
    has no version entry, so the optional version field of AttachmentInfo
    stays unset. -/
def getAttachments (remote : RemoteState) : List AttachmentInfo :=
  remote.attachments.map (fun a =>
    { id := a.id
      title := a.title
      version := none
      downloadUrl := a.downloadLink
      fileSize := a.fileSize
      mediaType := a.mediaType })

/-- Embedding of the downloadAttachment client call: the bytes of the remote
    attachment with the given id. -/
def downloadAttachmentBytes (remote : RemoteState) (attachmentId : String) :
    List Nat :=
  match remote.attachments.find? (fun a => a.id == attachmentId) with
  | some a => a.bytes
  | none => []

/-- Embedding of the filter normalization at the top of both attachment
    operations: trim each title, then keep the set only when the list is
    non-empty. -/
def filterSetOf (attachmentFilter : Option (List String)) :
    Option (List String) :=
  match attachmentFilter.map (List.map String.trim) with
  | some ts => if 0 < ts.length then some ts else none
  | none => none

/-- The candidate attachments of a download: the remote listing restricted to
    the filter set when one is present. -/
def candidateInfos (remote : RemoteState) (fset : Option (List String)) :
    List AttachmentInfo :=
  match fset with
  | some s => (getAttachments remote).filter (fun i => s.contains i.title)
  | none => getAttachments remote

/-- Lookup in a JavaScript Map built from an entry list: the last entry for a
    key wins. -/
def mapGet (l : List AttachmentMeta) (t : String) : Option AttachmentMeta :=
  match l with
  | [] => none
  | a :: rest =>
    match mapGet rest t with
    | some r => some r
    | none => if a.title = t then some a else none

/-- Lookup in the Map built from the filtered listing, again last entry
    wins. -/
def infoMapGet (l : List AttachmentInfo) (t : String) : Option AttachmentInfo :=
  match l with
  | [] => none
  | a :: rest =>
    match infoMapGet rest t with
    | some r => some r
    | none => if a.title = t then some a else none

/-- The fresh metadata record downloadAttachments builds when none exists
    locally. -/
def freshMeta (now : Nat) (pageId : String) (remote : RemoteState) : PageMeta :=
  { pageId := pageId
    title := remote.page.title
    version := remote.page.version
    downloadedAt := now
    storagePath := pagePathOf pageId
    storageSha256 := ""
    lastUploadedAt := none
    lastAttachmentScanAt := none
    attachments := [] }

/-- The per-candidate loop of downloadAttachments: for each candidate in
    listing order, skip when the tracked entry has the listed version (the
    listed version defaulting to the tracked one when absent) and the local
    file exists, otherwise download the bytes and write the file. Returns the
    final files, the downloaded titles and the skipped titles. -/
def processCandidates (remote : RemoteState) (existing : List AttachmentMeta) :
    List (String × List Nat) → List AttachmentInfo →
    List (String × List Nat) × List String × List String
  | files, [] => (files, [], [])
  | files, info :: rest =>
    let skip : Bool :=
      match mapGet existing info.title with
      | some ex =>
        ex.version == info.version.getD ex.version &&
        (List.lookup info.title files).isSome
      | none => false
    if skip then
      let out := processCandidates remote existing files rest
      (out.1, out.2.1, info.title :: out.2.2)
    else
      let data := downloadAttachmentBytes remote info.id
      let files1 := fsWrite files info.title data
      let out := processCandidates remote existing files1 rest
      (out.1, info.title :: out.2.1, out.2.2)

/-- The metadata entry rebuilt for a downloaded title: id and sizes from the
    listing, hash of the bytes now on disk, version from the listing when
    present, else the previously tracked version, else 1. -/
def builtEntry (sha : Sha256) (now : Nat) (pageId : String)
    (files : List (String × List Nat)) (existing : List AttachmentMeta)
    (info : AttachmentInfo) : AttachmentMeta :=
  let data := (List.lookup info.title files).getD []
  let prev := existing.find? (fun a => a.title == info.title)
  { id := info.id
    title := info.title
    version := info.version.getD ((prev.map (fun a => a.version)).getD 1)
    downloadedAt := some now
    storagePath := attachmentPathOf pageId info.title
    sha256 := sha.ofBytes data
    mediaType := info.mediaType
    fileSize := info.fileSize
    lastUploadedAt := prev.bind (fun a => a.lastUploadedAt) }

/-- Replaces the first entry with the same title, or appends at the end when
    none matches: the findIndex-then-assign-else-push idiom. -/
def replaceFirstByTitle : List AttachmentMeta → AttachmentMeta →
    List AttachmentMeta
  | [], e => [e]
  | a :: rest, e =>
    if a.title == e.title then e :: rest else a :: replaceFirstByTitle rest e

/-- The upsert loop over downloaded titles: titles missing from the filtered
    listing map are skipped, every other title gets its rebuilt entry
    upserted by title. -/
def upsertDownloaded (sha : Sha256) (now : Nat) (pageId : String)
    (files : List (String × List Nat)) (existing : List AttachmentMeta)
    (filtered : List AttachmentInfo) :
    List AttachmentMeta → List String → List AttachmentMeta
  | acc, [] => acc
  | acc, t :: rest =>
    match infoMapGet filtered t with
    | none => upsertDownloaded sha now pageId files existing filtered acc rest
    | some info =>
      upsertDownloaded sha now pageId files existing filtered
        (replaceFirstByTitle acc (builtEntry sha now pageId files existing info))
        rest

/-- Result of downloadAttachments. -/
structure AttachmentsDownloadResult where
  success : Bool
  downloaded : List String
  skipped : List String
  removed : List String
deriving DecidableEq, Repr

/-- Embedding of downloadAttachments on the success path: list and filter the
    remote attachments, run the per-candidate loop, then on an unfiltered run
    garbage-collect every tracked attachment absent from the listing (delete
    its file, record it as removed), rebuild the metadata entries for the
    downloaded titles and write the metadata record. -/
def downloadAttachments (sha : Sha256) (now : Nat) (pageId : String)
    (remote : RemoteState) (loc : LocalState)
    (attachmentFilter : Option (List String)) :
    LocalState × AttachmentsDownloadResult :=
  let fset := filterSetOf attachmentFilter
  let infos := getAttachments remote
  let filtered := candidateInfos remote fset
  let pageMeta :=
    match loc.meta with
    | some m => m
    | none => freshMeta now pageId remote
  let existing := pageMeta.attachments
  let out := processCandidates remote existing loc.attachmentFiles filtered
  let files1 := out.1
  let downloaded := out.2.1
  let skipped := out.2.2
  let removedTitles :=
    match fset with
    | none =>
      (existing.filter (fun ex =>
        !(infos.any (fun i => i.title == ex.title)))).map (fun a => a.title)
    | some _ => []
  let files2 :=
    match fset with
    | none => files1.filter (fun kv => !(removedTitles.contains kv.1))
    | some _ => files1
  let kept := existing.filter (fun a => !(removedTitles.contains a.title))
  let updatedAttachments :=
    upsertDownloaded sha now pageId files2 existing filtered kept downloaded
  let nextMeta :=
    { pageMeta with
        attachments := updatedAttachments
        lastAttachmentScanAt := some now }
  ({ meta := some nextMeta, pageFile := loc.pageFile,
     attachmentFiles := files2 },
   { success := true, downloaded := downloaded, skipped := skipped,
     removed := removedTitles })

/-! ### Attachment upload -/

/-- Embedding of guessContentType from file-utils: media type by lowercased
    file extension. -/
def guessContentType (fileName : String) : String :=
  let revAfterDot := (fileName.toList.reverse.takeWhile (fun c => c ≠ '.'))
  let ext :=
    if revAfterDot.length = fileName.length then ""
    else String.mk ('.' :: (revAfterDot.reverse.map Char.toLower))
  if ext = ".png" then "image/png"
  else if ext = ".jpg" || ext = ".jpeg" then "image/jpeg"
  else if ext = ".gif" then "image/gif"
  else if ext = ".webp" then "image/webp"
  else if ext = ".svg" then "image/svg+xml"
  else if ext = ".pdf" then "application/pdf"
  else if ext = ".txt" then "text/plain"
  else if ext = ".md" then "text/markdown"
  else if ext = ".html" || ext = ".xhtml" then "application/xhtml+xml"
  else "application/octet-stream"

/-- One call to the uploadAttachment endpoint. -/
structure UploadAttachmentCall where
  fileName : String
  data : List Nat
  contentType : String
deriving DecidableEq, Repr

/-- Modelled from the spec: the server-side effect of uploadAttachment, which
    is not in the repository. Re-uploading an existing filename creates a new
    version of the same logical attachment; a new filename creates a new
    attachment. The response mapping mirrors the client source, which maps
    id, title, downloadUrl, fileSize and mediaType and never sets the
    optional version field. -/
def remoteUploadAttachment (remote : RemoteState) (fileName : String)
    (data : List Nat) (contentType : String) : RemoteState × AttachmentInfo :=
  match remote.attachments.find? (fun a => a.title == fileName) with
  | some a =>
    let a2 : RemoteAttachment :=
      { a with
          version := a.version + 1
          bytes := data
          fileSize := data.length
          mediaType := contentType }
    ({ remote with
        attachments := remote.attachments.map (fun x =>
          if x.title == fileName then a2 else x) },
     { id := a2.id, title := a2.title, version := none,
       downloadUrl := a2.downloadLink, fileSize := a2.fileSize,
       mediaType := a2.mediaType })
  | none =>
    let a2 : RemoteAttachment :=
      { id := "att-" ++ fileName
        title := fileName
        version := 1
        downloadLink := ""
        fileSize := data.length
        mediaType := contentType
        bytes := data }
    ({ remote with attachments := remote.attachments ++ [a2] },
     { id := a2.id, title := a2.title, version := none,
       downloadUrl := a2.downloadLink, fileSize := a2.fileSize,
       mediaType := a2.mediaType })

/-- The accumulating state of the uploadAttachments loop. -/
structure UploadLoopState where
  remote : RemoteState
  updatedAttachments : List AttachmentMeta
  uploaded : List String
  skipped : List String
  calls : List UploadAttachmentCall
  err : Option ErrCode
deriving DecidableEq, Repr

/-- The per-attachment loop of uploadAttachments: a missing local file aborts
    the whole operation, a hash equal to the tracked hash skips, otherwise
    the bytes are uploaded and the tracked entry replaced by title. -/
def processUploads (sha : Sha256) (now : Nat)
    (files : List (String × List Nat)) :
    UploadLoopState → List AttachmentMeta → UploadLoopState
  | st, [] => st
  | st, am :: rest =>
    match List.lookup am.title files with
    | none => { st with err := some .attachmentFileNotFound }
    | some data =>
      let localSha := sha.ofBytes data
      if localSha == am.sha256 then
        processUploads sha now files
          { st with skipped := st.skipped ++ [am.title] } rest
      else
        let contentType := guessContentType am.title
        let r := remoteUploadAttachment st.remote am.title data contentType
        let resp := r.2
        let newMeta : AttachmentMeta :=
          { am with
              id := resp.id
              version := resp.version.getD (am.version + 1)
              sha256 := sha.ofBytes data
              mediaType := resp.mediaType
              fileSize := resp.fileSize
              lastUploadedAt := some now }
        processUploads sha now files
          { st with
              remote := r.1
              updatedAttachments :=
                replaceFirstByTitle st.updatedAttachments newMeta
              uploaded := st.uploaded ++ [am.title]
              calls := st.calls ++
                [{ fileName := am.title, data := data,
                   contentType := contentType }] }
          rest

/-- Outcome of uploadAttachments: the thrown error or the uploaded and
    skipped title lists, plus final local and remote state and the recorded
    endpoint calls. -/
structure AttachmentsUploadOutcome where
  result : Except ErrCode (List String × List String)
  loc : LocalState
  remote : RemoteState
  uploadCalls : List UploadAttachmentCall
deriving DecidableEq, Repr

/-- Embedding of uploadAttachments: require a metadata record, restrict the
    tracked attachments to the filter set when present, run the upload loop,
    and write the metadata record only when no error occurred. -/
def uploadAttachments (sha : Sha256) (now : Nat) (pageId : String)
    (remote : RemoteState) (loc : LocalState)
    (attachmentFilter : Option (List String)) : AttachmentsUploadOutcome :=
  let fset := filterSetOf attachmentFilter
  match loc.meta with
  | none =>
    { result := .error .metaNotFound, loc := loc, remote := remote,
      uploadCalls := [] }
  | some meta =>
    let toProcess :=
      match fset with
      | some s => meta.attachments.filter (fun a => s.contains a.title)
      | none => meta.attachments
    let st0 : UploadLoopState :=
      { remote := remote, updatedAttachments := meta.attachments,
        uploaded := [], skipped := [], calls := [], err := none }
    let st := processUploads sha now loc.attachmentFiles st0 toProcess
    match st.err with
    | some e =>
      { result := .error e, loc := loc, remote := st.remote,
        uploadCalls := st.calls }
    | none =>
      let nextMeta := { meta with attachments := st.updatedAttachments }
      { result := .ok (st.uploaded, st.skipped)
        loc := { loc with meta := some nextMeta }
        remote := st.remote
        uploadCalls := st.calls }

/-! ### Structured log writer masking -/

mutual
/-- JSON-like values of an event record. A JavaScript value recurses into the
    masking only when it is a non-null, non-array object, so arrays and
    objects are distinguished here. Element and field lists are their own
    inductive types so that the masking recursion is structural. -/
inductive Json where
  | str (s : String)
  | num (n : Int)
  | bool (b : Bool)
  | null
  | arr (elems : JsonList)
  | obj (fields : JsonFields)
deriving DecidableEq, Repr

inductive JsonList where
  | nil
  | cons (v : Json) (rest : JsonList)
deriving DecidableEq, Repr

inductive JsonFields where
  | nil
  | cons (k : String) (v : Json) (rest : JsonFields)
deriving DecidableEq, Repr
end

/-- The sensitive key substrings of maskSensitive. -/
def sensitiveKeys : List String :=
  ["token", "password", "apitoken", "api_token", "email"]

/-- Lowercases every character of a string. -/
def toLowerStr (s : String) : String :=
  String.mk (s.toList.map Char.toLower)

/-- Substring containment over character lists. -/
def containsSub : List Char → List Char → Bool
  | n, [] => n.isEmpty
  | n, c :: cs => leadsWith n (c :: cs) || containsSub n cs

/-- A key is sensitive when its lowercased form contains one of the sensitive
    substrings. -/
def isSensitiveKey (k : String) : Bool :=
  sensitiveKeys.any (fun s => containsSub s.toList (toLowerStr k).toList)

/-- The fixed redaction marker. -/
def maskMarker : String := "***MASKED***"

/-- Embedding of maskSensitive: every field with a sensitive key is replaced
    by the redaction marker; a non-array object value is masked recursively;
    every other value, arrays included, is copied unchanged. -/
def maskSensitive : JsonFields → JsonFields
  | .nil => .nil
  | .cons k v rest =>
    if isSensitiveKey k then .cons k (Json.str maskMarker) (maskSensitive rest)
    else
      match v with
      | Json.obj fields => .cons k (Json.obj (maskSensitive fields)) (maskSensitive rest)
      | _ => .cons k v (maskSensitive rest)

/-- Abstract rendering of the ISO timestamp appended by writeLog. -/
def isoTimestamp (now : Nat) : String := "iso:" ++ toString now

/-- Tests whether a field list has a key. -/
def hasKey : JsonFields → String → Bool
  | .nil, _ => false
  | .cons k _ rest, key => k == key || hasKey rest key

/-- Replaces the value of every field with the given key. -/
def setExisting : JsonFields → String → Json → JsonFields
  | .nil, _, _ => .nil
  | .cons k v rest, key, nv =>
    if k == key then .cons k nv (setExisting rest key nv)
    else .cons k v (setExisting rest key nv)

/-- Appends one field at the end of a field list. -/
def appendField : JsonFields → String → Json → JsonFields
  | .nil, k, v => .cons k v .nil
  | .cons k0 v0 rest, k, v => .cons k0 v0 (appendField rest k v)

/-- Sets a field with JavaScript object spread semantics: an existing key
    keeps its position and takes the new value, a new key is appended. -/
def setField (l : JsonFields) (k : String) (v : Json) : JsonFields :=
  if hasKey l k then setExisting l k v else appendField l k v

/-- Embedding of writeLog as far as the record content is concerned: the
    entry is masked, then the timestamp field is added, and the result is the
    JSON line appended to the log file. -/
def writeLogEntry (now : Nat) (entry : JsonFields) : JsonFields :=
  setField (maskSensitive entry) "timestamp" (Json.str (isoTimestamp now))

/-! ### Shared witness fixtures -/

/-- A compact table body on which the formatter is not the identity. -/
def tableBody : String := "<table><tbody><tr><td>x</td></tr></tbody></table>"

/-- A concrete hash function that is injective on strings, used to discharge
    hash-distinctness hypotheses in witnesses. -/
def identitySha : Sha256 :=
  { ofString := fun s => s, ofBytes := fun bs => toString bs }

/-- A remote state whose page body contains a table. -/
def remoteFix : RemoteState :=
  { page := { title := "T", version := 3, storageValue := tableBody },
    attachments := [] }

/-- An empty local cache. -/
def emptyLocal : LocalState :=
  { meta := none, pageFile := none, attachmentFiles := [] }

/-- The attachments tracked by the local metadata record, an empty list when
    no record exists, matching the pageMeta fallback of downloadAttachments
    whose fresh record carries no attachments. -/
def trackedAttachments (loc : LocalState) : List AttachmentMeta :=
  match loc.meta with
  | some m => m.attachments
  | none => []

/-- Written from the amended claim C7: a download candidate is skipped
    exactly when an entry with its title is tracked in the metadata and its
    local file exists; the remote version plays no role, because the listing
    the client returns carries no version. -/
def skipEligible (tracked : List AttachmentMeta)
    (files : List (String × List Nat)) (i : AttachmentInfo) : Bool :=
  (mapGet tracked i.title).isSome && (List.lookup i.title files).isSome

/-- A remote state with one attachment at remote version 2. -/
def remoteC7 : RemoteState :=
  { page := { title := "T", version := 3, storageValue := "<p>a</p>" },
    attachments :=
      [{ id := "A1", title := "a.png", version := 2, downloadLink := "dl",
         fileSize := 2, mediaType := "image/png", bytes := [9, 9] }] }

/-- A metadata record tracking attachment a.png at local version 1. -/
def metaC7 : PageMeta :=
  { pageId := "p", title := "T", version := 3, downloadedAt := 0,
    storagePath := "p/page.xhtml", storageSha256 := "h",
    lastUploadedAt := none, lastAttachmentScanAt := none,
    attachments :=
      [{ id := "A1", title := "a.png", version := 1,
         downloadedAt := some 0, storagePath := "p/attachments/a.png",
         sha256 := "h1", mediaType := "image/png", fileSize := 2,
         lastUploadedAt := none }] }

/-- A tracked attachment entry at local version 1 with its file present. -/
def locC7 : LocalState :=
  { meta := some metaC7
    pageFile := none
    attachmentFiles := [("a.png", [1, 2])] }

/-- A stale tracked attachment that does not exist on the remote side of
    remoteC7. -/
def attOld : AttachmentMeta :=
  { id := "OLD", title := "old.png", version := 1,
    downloadedAt := some 0, storagePath := "p/attachments/old.png",
    sha256 := "h0", mediaType := "image/png", fileSize := 1,
    lastUploadedAt := none }

/-- A metadata record tracking one stale attachment old.png that does not
    exist on the remote side of remoteC7. -/
def metaC6 : PageMeta :=
  { pageId := "p", title := "T", version := 3, downloadedAt := 0,
    storagePath := "p/page.xhtml", storageSha256 := "h",
    lastUploadedAt := none, lastAttachmentScanAt := none,
    attachments := [attOld] }

/-- A local cache tracking one stale attachment that no longer exists on the
    remote side of remoteC7. -/
def locC6 : LocalState :=
  { meta := some metaC6
    pageFile := none
    attachmentFiles := [("old.png", [7])] }

/-- Written from the amended claim C9: the relation between an event record
    and its masked form. Field order and keys are preserved; a field whose
    key contains a sensitive substring case-insensitively is replaced by the
    redaction marker; a non-array object value under a non-sensitive key is
    masked recursively; every other value under a non-sensitive key, arrays
    included, is copied verbatim. -/
inductive MaskRel : JsonFields → JsonFields → Prop
  | nil : MaskRel .nil .nil
  | sens {k : String} {v : Json} {t u : JsonFields} :
      isSensitiveKey k = true → MaskRel t u →
      MaskRel (.cons k v t) (.cons k (Json.str maskMarker) u)
  | objField {k : String} {fs gs : JsonFields} {t u : JsonFields} :
      isSensitiveKey k = false → MaskRel fs gs → MaskRel t u →
      MaskRel (.cons k (Json.obj fs) t) (.cons k (Json.obj gs) u)
  | plain {k : String} {v : Json} {t u : JsonFields} :
      isSensitiveKey k = false → (∀ fs, v ≠ Json.obj fs) → MaskRel t u →
      MaskRel (.cons k v t) (.cons k v u)

/-! ### Claim C1 -/

set_option maxRecDepth 10000 in
/-- Claim C1: collapse(expand(m)) = m was claimed for every well-formed
    storage markup string. It fails on markup with whitespace between table
    tags, which is well-formed storage markup: on this input the collapse
    step deletes the original newline between the tbody and tr tags, because
    its greedy whitespace patterns also remove whitespace the expand step
    never inserted. The theorem evaluates both transforms at the failing
    input and shows the round trip loses the newline. -/
theorem roundtrip_fails_on_intertag_whitespace :
    formatTableXhtml "<table><tbody>\n<tr><td>x</td></tr></tbody></table>" =
      "<table>\n<tbody>\n  \n<tr>\n    <td>x</td>\n  </tr>\n</tbody>\n</table>\n" ∧
    unformatTableXhtml (formatTableXhtml
        "<table><tbody>\n<tr><td>x</td></tr></tbody></table>") =
      "<table><tbody><tr><td>x</td></tr></tbody></table>" ∧
    unformatTableXhtml (formatTableXhtml
        "<table><tbody>\n<tr><td>x</td></tr></tbody></table>") ≠
      "<table><tbody>\n<tr><td>x</td></tr></tbody></table>" :=
  ⟨rfl, rfl, by decide⟩

/-! ### Claim C2 -/

/-- Claim C2: a download followed by an immediate upload with no local edits
    was claimed to report pageUpdated = false and make no remote mutation
    call. The code stores the hash of the raw storage text on download but
    hashes the formatted file text on upload, so whenever the formatter
    changes the body text the immediate upload reports pageUpdated = true and
    calls the update endpoint. -/
theorem download_then_upload_spurious_update
    (sha : Sha256) (now1 now2 : Nat) (pageId : String)
    (remote : RemoteState) (loc : LocalState)
    (hm : loc.meta = none)
    (hne : sha.ofString (formatTableXhtml remote.page.storageValue) ≠
      sha.ofString remote.page.storageValue) :
    (uploadBody sha now2 pageId remote
      (downloadBody sha now1 pageId remote loc).1).result = .ok true ∧
    (uploadBody sha now2 pageId remote
      (downloadBody sha now1 pageId remote loc).1).updateCalls ≠ [] := by
  have hb : (sha.ofString (formatTableXhtml remote.page.storageValue) !=
      sha.ofString remote.page.storageValue) = true := by
    simpa [bne_iff_ne] using hne
  simp [downloadBody, uploadBody, hm, hb]

set_option maxRecDepth 10000 in
/-- Witness for the claim C2 theorem at a concrete table page. -/
theorem download_then_upload_spurious_update_witness :
    emptyLocal.meta = none ∧
    identitySha.ofString (formatTableXhtml remoteFix.page.storageValue) ≠
      identitySha.ofString remoteFix.page.storageValue ∧
    ((uploadBody identitySha 1 "p" remoteFix
      (downloadBody identitySha 0 "p" remoteFix emptyLocal).1).result =
        .ok true ∧
     (uploadBody identitySha 1 "p" remoteFix
      (downloadBody identitySha 0 "p" remoteFix emptyLocal).1).updateCalls ≠
        []) :=
  ⟨rfl, by decide,
    download_then_upload_spurious_update identitySha 0 1 "p" remoteFix
      emptyLocal rfl (by decide)⟩

/-! ### Claim C3 -/

/-- Claim C3: the stored bodyContentHash was claimed to always equal the hash
    of the formatted body text on disk, with downloadBody hashing the remote
    body after applying the expand transform. The code hashes the raw remote
    storage text before formatting: after a fresh download the stored hash is
    the hash of the unformatted remote representation while the disk holds
    the formatted text, so the two differ whenever the formatter changes the
    text. -/
theorem downloadBody_stores_raw_hash
    (sha : Sha256) (now : Nat) (pageId : String)
    (remote : RemoteState) (loc : LocalState)
    (hm : loc.meta = none)
    (hne : sha.ofString (formatTableXhtml remote.page.storageValue) ≠
      sha.ofString remote.page.storageValue) :
    ((downloadBody sha now pageId remote loc).1.meta.map
        (fun m => m.storageSha256)) =
      some (sha.ofString remote.page.storageValue) ∧
    (downloadBody sha now pageId remote loc).1.pageFile =
      some (formatTableXhtml remote.page.storageValue) ∧
    ((downloadBody sha now pageId remote loc).1.meta.map
        (fun m => m.storageSha256)) ≠
      ((downloadBody sha now pageId remote loc).1.pageFile.map sha.ofString) := by
  simp [downloadBody, hm]
  exact fun h => hne h.symm

set_option maxRecDepth 10000 in
/-- Witness for the claim C3 theorem at a concrete table page. -/
theorem downloadBody_stores_raw_hash_witness :
    emptyLocal.meta = none ∧
    identitySha.ofString (formatTableXhtml remoteFix.page.storageValue) ≠
      identitySha.ofString remoteFix.page.storageValue ∧
    (((downloadBody identitySha 0 "p" remoteFix emptyLocal).1.meta.map
        (fun m => m.storageSha256)) =
      some (identitySha.ofString remoteFix.page.storageValue) ∧
     (downloadBody identitySha 0 "p" remoteFix emptyLocal).1.pageFile =
      some (formatTableXhtml remoteFix.page.storageValue) ∧
     ((downloadBody identitySha 0 "p" remoteFix emptyLocal).1.meta.map
        (fun m => m.storageSha256)) ≠
      ((downloadBody identitySha 0 "p" remoteFix
          emptyLocal).1.pageFile.map identitySha.ofString)) :=
  ⟨rfl, by decide,
    downloadBody_stores_raw_hash identitySha 0 "p" remoteFix emptyLocal rfl
      (by decide)⟩

/-! ### Claim C4 -/

/-- Claim C4: when metadata and body file exist locally and the current
    remote version differs from the locally recorded version, uploadBody
    fails with the version-conflict error, performs no update call and leaves
    both the local state and the remote state unchanged. -/
theorem uploadBody_version_conflict
    (sha : Sha256) (now : Nat) (pageId : String)
    (remote : RemoteState) (loc : LocalState) (m : PageMeta) (body : String)
    (hm : loc.meta = some m) (hf : loc.pageFile = some body)
    (hv : remote.page.version ≠ m.version) :
    uploadBody sha now pageId remote loc =
      { result := .error .versionConflict, loc := loc, remote := remote,
        updateCalls := [] } := by
  simp [uploadBody, hm, hf, hv]

/-- Witness for the claim C4 theorem. -/
theorem uploadBody_version_conflict_witness :
    (let loc : LocalState :=
      { meta := some
          { pageId := "p", title := "T", version := 2, downloadedAt := 0,
            storagePath := "p/page.xhtml", storageSha256 := "h",
            lastUploadedAt := none, lastAttachmentScanAt := none,
            attachments := [] },
        pageFile := some "<p>a</p>", attachmentFiles := [] }
     uploadBody identitySha 5 "p" remoteFix loc =
      { result := .error .versionConflict, loc := loc, remote := remoteFix,
        updateCalls := [] }) :=
  uploadBody_version_conflict identitySha 5 "p" remoteFix _ _ "<p>a</p>"
    rfl rfl (by decide)

/-! ### Claim C5 -/

/-- Claim C5: calling downloadBody twice against an unchanged remote yields
    skipped = true on the second call and leaves the body file exactly as the
    first call left it. -/
theorem downloadBody_idempotent
    (sha : Sha256) (now1 now2 : Nat) (pageId : String)
    (remote : RemoteState) (loc : LocalState) :
    (downloadBody sha now2 pageId remote
      (downloadBody sha now1 pageId remote loc).1).2.skipped = true ∧
    (downloadBody sha now2 pageId remote
      (downloadBody sha now1 pageId remote loc).1).1.pageFile =
      (downloadBody sha now1 pageId remote loc).1.pageFile := by
  cases hm : loc.meta with
  | none => simp [downloadBody, hm]
  | some m =>
    rcases hb : (m.version == remote.page.version &&
        m.storageSha256 == sha.ofString remote.page.storageValue) with _ | _
    · simp [downloadBody, hm, hb]
    · have h2 := (Bool.and_eq_true _ _ |>.mp hb).2
      have h2x : m.storageSha256 = sha.ofString remote.page.storageValue := by
        simpa using h2
      simp [downloadBody, hm, hb, h2x]

/-! ### Claim C8 -/

/-- Claim C8: uploadBody requires a local metadata record and a local body
    file; a missing metadata record fails with META_NOT_FOUND and a missing
    body file fails with PAGE_FILE_NOT_FOUND, neither being a silent no-op. -/
theorem uploadBody_missing_local_errors
    (sha : Sha256) (now : Nat) (pageId : String)
    (remote : RemoteState) (loc : LocalState) :
    (loc.meta = none →
      uploadBody sha now pageId remote loc =
        { result := .error .metaNotFound, loc := loc, remote := remote,
          updateCalls := [] }) ∧
    (∀ m, loc.meta = some m → loc.pageFile = none →
      uploadBody sha now pageId remote loc =
        { result := .error .pageFileNotFound, loc := loc, remote := remote,
          updateCalls := [] }) := by
  constructor
  · intro hm
    simp [uploadBody, hm]
  · intro m hm hf
    simp [uploadBody, hm, hf]

/-- Witness for the claim C8 theorem at two concrete local states. -/
theorem uploadBody_missing_local_errors_witness :
    uploadBody identitySha 0 "p" remoteFix emptyLocal =
      { result := .error .metaNotFound, loc := emptyLocal,
        remote := remoteFix, updateCalls := [] } ∧
    (let loc1 : LocalState :=
      { meta := some (freshMeta 0 "p" remoteFix), pageFile := none,
        attachmentFiles := [] }
     uploadBody identitySha 0 "p" remoteFix loc1 =
      { result := .error .pageFileNotFound, loc := loc1, remote := remoteFix,
        updateCalls := [] }) :=
  ⟨(uploadBody_missing_local_errors identitySha 0 "p" remoteFix
      emptyLocal).1 rfl,
   (uploadBody_missing_local_errors identitySha 0 "p" remoteFix
      { meta := some (freshMeta 0 "p" remoteFix), pageFile := none,
        attachmentFiles := [] }).2 (freshMeta 0 "p" remoteFix) rfl rfl⟩

/-! ### Claim C10 -/

/-- Claim C10: for both attachment operations, a filter whose includeTitles
    list is empty behaves exactly like no filter at all, every attachment
    being a candidate and the unfiltered garbage-collection pass of
    downloadAttachments included. -/
theorem emptyFilter_equals_noFilter
    (sha : Sha256) (now : Nat) (pageId : String)
    (remote : RemoteState) (loc : LocalState) :
    downloadAttachments sha now pageId remote loc (some []) =
      downloadAttachments sha now pageId remote loc none ∧
    uploadAttachments sha now pageId remote loc (some []) =
      uploadAttachments sha now pageId remote loc none :=
  ⟨rfl, rfl⟩

/-! ### Supporting lemmas on the attachment download loop -/

theorem lookup_filter_ne (files : List (String × List Nat)) (name t : String)
    (h : t ≠ name) :
    List.lookup t (files.filter (fun kv => kv.1 ≠ name)) =
      List.lookup t files := by
  induction files with
  | nil => rfl
  | cons kv rest ih =>
    obtain ⟨k, v⟩ := kv
    by_cases hk : k = name
    · have hcond : (decide (((k, v) : String × List Nat).1 ≠ name)) = false := by
        simp [hk]
      have ht : (t == k) = false := by rw [hk]; simpa using h
      simp only [List.filter, hcond, List.lookup, ht, ih]
    · have hcond : (decide (((k, v) : String × List Nat).1 ≠ name)) = true := by
        simp [hk]
      cases hbeq : t == k with
      | true => simp only [List.filter, hcond, List.lookup, hbeq]
      | false => simp only [List.filter, hcond, List.lookup, hbeq, ih]

theorem lookup_fsWrite (files : List (String × List Nat))
    (name : String) (data : List Nat) (t : String) :
    List.lookup t (fsWrite files name data) =
      if t = name then some data else List.lookup t files := by
  by_cases h : t = name
  · simp [fsWrite, List.lookup, h]
  · have hbeq : (t == name) = false := by simpa using h
    simp only [fsWrite, List.lookup, hbeq, if_neg h]
    exact lookup_filter_ne files name t h

theorem processCandidates_keeps (remote : RemoteState)
    (existing : List AttachmentMeta) (cands : List AttachmentInfo)
    (files : List (String × List Nat)) (t : String)
    (h : (List.lookup t files).isSome = true) :
    (List.lookup t
      (processCandidates remote existing files cands).1).isSome = true := by
  induction cands generalizing files with
  | nil => simpa [processCandidates] using h
  | cons info rest ih =>
    simp only [processCandidates]
    by_cases hs : (match mapGet existing info.title with
      | some ex =>
        ex.version == info.version.getD ex.version &&
        (List.lookup info.title files).isSome
      | none => false) = true
    · simpa [hs] using ih files h
    · have hw : (List.lookup t (fsWrite files info.title
          (downloadAttachmentBytes remote info.id))).isSome = true := by
        rw [lookup_fsWrite]
        by_cases ht : t = info.title
        · simp [ht]
        · simpa [ht] using h
      simpa [hs] using ih _ hw

theorem processCandidates_lookup_other (remote : RemoteState)
    (existing : List AttachmentMeta) (cands : List AttachmentInfo)
    (files : List (String × List Nat)) (t : String)
    (h : ∀ i ∈ cands, i.title ≠ t) :
    List.lookup t (processCandidates remote existing files cands).1 =
      List.lookup t files := by
  induction cands generalizing files with
  | nil => rfl
  | cons info rest ih =>
    have hhead : info.title ≠ t := h info (by simp)
    have htail : ∀ i ∈ rest, i.title ≠ t := fun i hi => h i (by simp [hi])
    simp only [processCandidates]
    by_cases hs : (match mapGet existing info.title with
      | some ex =>
        ex.version == info.version.getD ex.version &&
        (List.lookup info.title files).isSome
      | none => false) = true
    · simpa [hs] using ih files htail
    · have hres := ih (fsWrite files info.title
        (downloadAttachmentBytes remote info.id)) htail
      rw [lookup_fsWrite,
        if_neg (fun hh : t = info.title => hhead hh.symm)] at hres
      simpa [hs] using hres

theorem processCandidates_downloaded_mem (remote : RemoteState)
    (existing : List AttachmentMeta) (cands : List AttachmentInfo)
    (files : List (String × List Nat)) :
    ∀ t ∈ (processCandidates remote existing files cands).2.1,
      t ∈ cands.map (fun i => i.title) := by
  induction cands generalizing files with
  | nil => simp [processCandidates]
  | cons info rest ih =>
    intro t ht
    simp only [processCandidates] at ht
    by_cases hs : (match mapGet existing info.title with
      | some ex =>
        ex.version == info.version.getD ex.version &&
        (List.lookup info.title files).isSome
      | none => false) = true
    · simp only [hs, if_pos] at ht
      have := ih files t ht
      simp [this]
    · simp only [hs, if_neg, if_false] at ht
      rcases List.mem_cons.mp ht with h1 | h2
      · simp [h1]
      · have := ih _ t h2
        simp [this]

theorem infoMapGet_title (l : List AttachmentInfo) (t : String)
    (i : AttachmentInfo) (h : infoMapGet l t = some i) : i.title = t := by
  induction l with
  | nil => simp [infoMapGet] at h
  | cons a rest ih =>
    simp only [infoMapGet] at h
    cases hres : infoMapGet rest t with
    | some r =>
      rw [hres] at h
      cases h
      exact ih hres
    | none =>
      rw [hres] at h
      by_cases ht : a.title = t
      · rw [if_pos ht] at h
        cases h
        exact ht
      · rw [if_neg ht] at h
        cases h

theorem replaceFirst_keeps_title (l : List AttachmentMeta)
    (e : AttachmentMeta) (t : String) (h : ∃ a ∈ l, a.title = t) :
    ∃ a ∈ replaceFirstByTitle l e, a.title = t := by
  induction l with
  | nil =>
    obtain ⟨a, ha, _⟩ := h
    exact absurd ha (List.not_mem_nil a)
  | cons b rest ih =>
    obtain ⟨a, ha, hat⟩ := h
    simp only [replaceFirstByTitle]
    by_cases hb : (b.title == e.title) = true
    · rw [if_pos hb]
      rcases List.mem_cons.mp ha with rfl | hmem
      · have hbe : a.title = e.title := beq_iff_eq.mp hb
        exact ⟨e, List.mem_cons_self e rest, by rw [← hbe]; exact hat⟩
      · exact ⟨a, List.mem_cons_of_mem e hmem, hat⟩
    · rw [if_neg hb]
      rcases List.mem_cons.mp ha with rfl | hmem
      · exact ⟨a, List.mem_cons_self a _, hat⟩
      · obtain ⟨c, hc, hct⟩ := ih ⟨a, hmem, hat⟩
        exact ⟨c, List.mem_cons_of_mem b hc, hct⟩

theorem replaceFirst_title_sub (l : List AttachmentMeta) (e : AttachmentMeta) :
    ∀ a ∈ replaceFirstByTitle l e,
      a.title ∈ l.map (fun x => x.title) ∨ a.title = e.title := by
  induction l with
  | nil =>
    intro a ha
    simp only [replaceFirstByTitle] at ha
    rcases List.mem_singleton.mp ha with rfl
    right
    rfl
  | cons b rest ih =>
    intro a ha
    simp only [replaceFirstByTitle] at ha
    by_cases hb : (b.title == e.title) = true
    · rw [if_pos hb] at ha
      rcases List.mem_cons.mp ha with rfl | hmem
      · right; rfl
      · left
        exact List.mem_map.mpr ⟨a, List.mem_cons_of_mem b hmem, rfl⟩
    · rw [if_neg hb] at ha
      rcases List.mem_cons.mp ha with rfl | hmem
      · left
        exact List.mem_map.mpr ⟨a, List.mem_cons_self a _, rfl⟩
      · rcases ih a hmem with hl | hr
        · left
          rcases List.mem_map.mp hl with ⟨c, hc, hct⟩
          exact List.mem_map.mpr ⟨c, List.mem_cons_of_mem b hc, hct⟩
        · right; exact hr

theorem upsert_keeps_title (sha : Sha256) (now : Nat) (pageId : String)
    (files : List (String × List Nat)) (existing : List AttachmentMeta)
    (filtered : List AttachmentInfo) (ts : List String)
    (acc : List AttachmentMeta) (t : String) (h : ∃ a ∈ acc, a.title = t) :
    ∃ a ∈ upsertDownloaded sha now pageId files existing filtered acc ts,
      a.title = t := by
  induction ts generalizing acc with
  | nil => simpa [upsertDownloaded] using h
  | cons t0 rest ih =>
    simp only [upsertDownloaded]
    cases hres : infoMapGet filtered t0 with
    | none => exact ih acc h
    | some info => exact ih _ (replaceFirst_keeps_title _ _ _ h)

theorem upsert_title_sub (sha : Sha256) (now : Nat) (pageId : String)
    (files : List (String × List Nat)) (existing : List AttachmentMeta)
    (filtered : List AttachmentInfo) (ts : List String)
    (acc : List AttachmentMeta) :
    ∀ a ∈ upsertDownloaded sha now pageId files existing filtered acc ts,
      a.title ∈ acc.map (fun x => x.title) ∨ a.title ∈ ts := by
  induction ts generalizing acc with
  | nil =>
    intro a ha
    simp only [upsertDownloaded] at ha
    exact Or.inl (List.mem_map.mpr ⟨a, ha, rfl⟩)
  | cons t0 rest ih =>
    intro a ha
    simp only [upsertDownloaded] at ha
    cases hres : infoMapGet filtered t0 with
    | none =>
      rw [hres] at ha
      rcases ih acc a ha with hl | hr
      · left; exact hl
      · right; exact List.mem_cons_of_mem t0 hr
    | some info =>
      rw [hres] at ha
      rcases ih _ a ha with hl | hr
      · rcases List.mem_map.mp hl with ⟨b, hb, hbt⟩
        rcases replaceFirst_title_sub _ _ b hb with h1 | h2
        · left; rw [← hbt]; exact h1
        · right
          have : (builtEntry sha now pageId files existing info).title =
              info.title := rfl
          rw [← hbt, h2, this, infoMapGet_title filtered t0 info hres]
          exact List.mem_cons_self t0 rest
      · right; exact List.mem_cons_of_mem t0 hr

theorem candidateInfos_version_none (remote : RemoteState)
    (fset : Option (List String)) :
    ∀ i ∈ candidateInfos remote fset, i.version = none := by
  intro i hi
  have hmem : i ∈ getAttachments remote := by
    cases fset with
    | none => simpa [candidateInfos] using hi
    | some s =>
      simp only [candidateInfos] at hi
      exact List.mem_of_mem_filter hi
  rcases List.mem_map.mp hmem with ⟨a, _, rfl⟩
  rfl


theorem processCandidates_spec (remote : RemoteState)
    (existing : List AttachmentMeta) (cands : List AttachmentInfo)
    (files : List (String × List Nat))
    (hver : ∀ i ∈ cands, i.version = none)
    (hnodup : (cands.map (fun i => i.title)).Nodup) :
    (processCandidates remote existing files cands).2.1 =
      (cands.filter (fun i => !(skipEligible existing files i))).map
        (fun i => i.title) ∧
    (processCandidates remote existing files cands).2.2 =
      (cands.filter (fun i => skipEligible existing files i)).map
        (fun i => i.title) := by
  induction cands generalizing files with
  | nil => constructor <;> rfl
  | cons info rest ih =>
    have hv0 : info.version = none := hver info (List.mem_cons_self _ _)
    have hverrest : ∀ i ∈ rest, i.version = none :=
      fun i hi => hver i (List.mem_cons_of_mem _ hi)
    rw [List.map_cons, List.nodup_cons] at hnodup
    have hnd := hnodup
    have hne : ∀ i ∈ rest, i.title ≠ info.title := by
      intro i hi he
      exact hnd.1 (List.mem_map.mpr ⟨i, hi, he⟩)
    have hskip : (match mapGet existing info.title with
        | some ex =>
          ex.version == info.version.getD ex.version &&
          (List.lookup info.title files).isSome
        | none => false) = skipEligible existing files info := by
      cases hmg : mapGet existing info.title with
      | none => simp [skipEligible, hmg]
      | some ex => simp [skipEligible, hmg, hv0]
    by_cases hel : skipEligible existing files info = true
    · have h1 := ih files hverrest hnd.2
      simp only [processCandidates, hskip, hel, if_true]
      constructor
      · rw [h1.1]
        simp [List.filter_cons, hel]
      · rw [h1.2]
        simp [List.filter_cons, hel]
    · have helF : skipEligible existing files info = false := by
        simpa using hel
      have hcongr : ∀ i ∈ rest,
          skipEligible existing (fsWrite files info.title
            (downloadAttachmentBytes remote info.id)) i =
          skipEligible existing files i := by
        intro i hi
        have hne' : i.title ≠ info.title := hne i hi
        simp [skipEligible, lookup_fsWrite, hne']
      have h1 := ih (fsWrite files info.title
        (downloadAttachmentBytes remote info.id)) hverrest hnd.2
      have hfd : rest.filter (fun i => !(skipEligible existing
            (fsWrite files info.title (downloadAttachmentBytes remote info.id)) i)) =
          rest.filter (fun i => !(skipEligible existing files i)) :=
        List.filter_congr (fun i hi => by rw [hcongr i hi])
      have hfs : rest.filter (fun i => skipEligible existing
            (fsWrite files info.title (downloadAttachmentBytes remote info.id)) i) =
          rest.filter (fun i => skipEligible existing files i) :=
        List.filter_congr (fun i hi => hcongr i hi)
      simp only [processCandidates, hskip, helF, if_false]
      constructor
      · rw [h1.1, hfd]
        simp [List.filter_cons, helF]
      · rw [h1.2, hfs]
        simp [List.filter_cons, helF]

theorem lookup_gc_removed (files : List (String × List Nat))
    (rem : List String) (t : String) (h : rem.contains t = true) :
    List.lookup t (files.filter (fun kv => !(rem.contains kv.1))) = none := by
  induction files with
  | nil => rfl
  | cons kv rest ih =>
    obtain ⟨k, v⟩ := kv
    by_cases hk : rem.contains k = true
    · have hcond : (!(rem.contains (((k, v) : String × List Nat).1))) = false := by
        show (!(rem.contains k)) = false
        rw [hk]
        rfl
      simp only [List.filter, hcond, ih]
    · have hkf : rem.contains k = false := by
        cases hc : rem.contains k with
        | false => rfl
        | true => exact absurd hc hk
      have hcond : (!(rem.contains (((k, v) : String × List Nat).1))) = true := by
        show (!(rem.contains k)) = true
        rw [hkf]
        rfl
      have htk : (t == k) = false := by
        by_contra hx
        have hx2 : t = k := beq_iff_eq.mp (by simpa using hx)
        rw [hx2] at h
        rw [hkf] at h
        cases h
      simp only [List.filter, hcond, List.lookup, htk, ih]


/-! ### Claim C6 -/

/-- Claim C6: an unfiltered downloadAttachments run is authoritative: every
    locally tracked attachment absent from the remote listing is recorded as
    removed, its file is deleted and its metadata entry dropped; a run with a
    non-empty filter removes nothing, keeps every local file present and
    keeps a metadata entry for every previously tracked title. -/
theorem downloadAttachments_gc_scope
    (sha : Sha256) (now : Nat) (pageId : String)
    (remote : RemoteState) (loc : LocalState) (m : PageMeta)
    (hm : loc.meta = some m) :
    (∀ a ∈ m.attachments,
      (∀ ra ∈ remote.attachments, ra.title ≠ a.title) →
      (a.title ∈ (downloadAttachments sha now pageId remote loc
          none).2.removed ∧
       List.lookup a.title (downloadAttachments sha now pageId remote loc
          none).1.attachmentFiles = none ∧
       (∀ m2 e, (downloadAttachments sha now pageId remote loc
            none).1.meta = some m2 →
          e ∈ m2.attachments → e.title ≠ a.title))) ∧
    (∀ ts : List String, ts ≠ [] →
      ((downloadAttachments sha now pageId remote loc
          (some ts)).2.removed = [] ∧
       (∀ t : String, (List.lookup t loc.attachmentFiles).isSome = true →
         (List.lookup t (downloadAttachments sha now pageId remote loc
           (some ts)).1.attachmentFiles).isSome = true) ∧
       (∀ a ∈ m.attachments, ∀ m2,
         (downloadAttachments sha now pageId remote loc
            (some ts)).1.meta = some m2 →
         ∃ e ∈ m2.attachments, e.title = a.title))) := by
  have hfn : filterSetOf none = none := rfl
  constructor
  · intro a ha habs
    have hanyF : ((getAttachments remote).any
        (fun i => i.title == a.title)) = false := by
      cases hany : (getAttachments remote).any (fun i => i.title == a.title) with
      | false => rfl
      | true =>
        rcases List.any_eq_true.mp hany with ⟨i, hi, hieq⟩
        rcases List.mem_map.mp hi with ⟨ra, hra, rfl⟩
        exact absurd (beq_iff_eq.mp hieq) (habs ra hra)
    have hmemRem : a.title ∈ (m.attachments.filter (fun ex =>
        !((getAttachments remote).any (fun i => i.title == ex.title)))).map
          (fun x => x.title) := by
      refine List.mem_map.mpr ⟨a, List.mem_filter.mpr ⟨ha, ?_⟩, rfl⟩
      rw [hanyF]
      rfl
    have hcont : ((m.attachments.filter (fun ex =>
        !((getAttachments remote).any (fun i => i.title == ex.title)))).map
          (fun x => x.title)).contains a.title = true :=
      List.elem_eq_true_of_mem hmemRem
    refine ⟨?_, ?_, ?_⟩
    · simp only [downloadAttachments, hm, hfn]
      exact hmemRem
    · simp only [downloadAttachments, hm, hfn]
      exact lookup_gc_removed _ _ _ hcont
    · intro m2 e hm2 hemem he
      simp only [downloadAttachments, hm, hfn] at hm2
      rw [Option.some.injEq] at hm2
      rw [← hm2] at hemem
      simp only at hemem
      rcases upsert_title_sub _ _ _ _ _ _ _ _ e hemem with hkept | hdl
      · rcases List.mem_map.mp hkept with ⟨b, hb, hbt⟩
        have hbf := (List.mem_filter.mp hb).2
        rw [hbt, he] at hbf
        rw [hcont] at hbf
        cases hbf
      · have hmemd := processCandidates_downloaded_mem remote m.attachments
          (candidateInfos remote none) loc.attachmentFiles e.title hdl
        rcases List.mem_map.mp hmemd with ⟨i, hi, hit⟩
        have : i ∈ getAttachments remote := by
          simpa [candidateInfos] using hi
        rcases List.mem_map.mp this with ⟨ra, hra, rfl⟩
        exact habs ra hra (by
          show ra.title = a.title
          rw [← he, ← hit])
  · intro ts hts
    have hlen : 0 < (ts.map String.trim).length := by
      rw [List.length_map]
      exact List.length_pos.mpr hts
    have hfs : filterSetOf (some ts) = some (ts.map String.trim) := by
      show (if 0 < (ts.map String.trim).length then some (ts.map String.trim)
        else none) = some (ts.map String.trim)
      rw [if_pos hlen]
    refine ⟨?_, ?_, ?_⟩
    · simp only [downloadAttachments, hm, hfs]
    · intro t ht
      simp only [downloadAttachments, hm, hfs]
      exact processCandidates_keeps _ _ _ _ _ ht
    · intro a ha m2 hm2
      simp only [downloadAttachments, hm, hfs] at hm2
      rw [Option.some.injEq] at hm2
      rw [← hm2]
      simp only
      refine upsert_keeps_title _ _ _ _ _ _ _ _ _ ⟨a, List.mem_filter.mpr ⟨ha, rfl⟩, rfl⟩

/-- Witness for the claim C6 theorem: a stale tracked attachment is removed
    by an unfiltered run and left alone by a filtered run. -/
theorem downloadAttachments_gc_scope_witness :
    attOld ∈ metaC6.attachments ∧
    (∀ ra ∈ remoteC7.attachments, ra.title ≠ attOld.title) ∧
    attOld.title ∈ (downloadAttachments identitySha 2 "p" remoteC7 locC6
      none).2.removed ∧
    List.lookup attOld.title (downloadAttachments identitySha 2 "p" remoteC7
      locC6 none).1.attachmentFiles = none ∧
    (["a.png"] : List String) ≠ [] ∧
    (downloadAttachments identitySha 2 "p" remoteC7 locC6
      (some ["a.png"])).2.removed = [] := by
  have h := downloadAttachments_gc_scope identitySha 2 "p" remoteC7 locC6
    metaC6 rfl
  have h1 := h.1 attOld (List.mem_cons_self _ _) (by decide)
  have h2 := h.2 ["a.png"] (by decide)
  exact ⟨List.mem_cons_self _ _, by decide, h1.1, h1.2.1, by decide, h2.1⟩

/-! ### Claim C7 -/

/-- Claim C7 counterexample: the remote attachment is at version 2 while the
    local metadata records version 1 and the local file exists, yet the
    unfiltered download skips it and downloads nothing, because the
    getAttachments mapping drops the version and the skip comparison
    degenerates to comparing the tracked version with itself. The claim said
    an attachment whose remote version advanced is re-downloaded. -/
theorem versionAdvance_not_redownloaded :
    (remoteC7.attachments.map (fun a => a.version)) = [2] ∧
    (metaC7.attachments.map (fun a => a.version)) = [1] ∧
    locC7.meta = some metaC7 ∧
    (downloadAttachments identitySha 1 "p" remoteC7 locC7 none).2.downloaded
      = [] ∧
    (downloadAttachments identitySha 1 "p" remoteC7 locC7 none).2.skipped
      = ["a.png"] := by
  refine ⟨rfl, rfl, rfl, ?_, ?_⟩ <;> decide

/-- Claim C7 amended: for each candidate of downloadAttachments the candidate
    is skipped exactly when an entry with its title is tracked and the local
    file exists, and downloaded otherwise; the listing the client returns
    carries no version, so a remote version advance alone never forces a
    re-download. Stated as an exact characterization of the downloaded and
    skipped title lists, assuming distinct candidate titles. -/
theorem downloadAttachments_skip_rule
    (sha : Sha256) (now : Nat) (pageId : String)
    (remote : RemoteState) (loc : LocalState)
    (attachmentFilter : Option (List String))
    (hnodup : ((candidateInfos remote (filterSetOf attachmentFilter)).map
      (fun i => i.title)).Nodup) :
    (downloadAttachments sha now pageId remote loc
        attachmentFilter).2.downloaded =
      ((candidateInfos remote (filterSetOf attachmentFilter)).filter
        (fun i => !(skipEligible (trackedAttachments loc)
          loc.attachmentFiles i))).map (fun i => i.title) ∧
    (downloadAttachments sha now pageId remote loc
        attachmentFilter).2.skipped =
      ((candidateInfos remote (filterSetOf attachmentFilter)).filter
        (fun i => skipEligible (trackedAttachments loc)
          loc.attachmentFiles i)).map (fun i => i.title) := by
  have hver := candidateInfos_version_none remote (filterSetOf attachmentFilter)
  have hspec := processCandidates_spec remote (trackedAttachments loc)
    (candidateInfos remote (filterSetOf attachmentFilter))
    loc.attachmentFiles hver hnodup
  cases hm : loc.meta with
  | none =>
    have htr : trackedAttachments loc = [] := by
      simp [trackedAttachments, hm]
    rw [htr] at hspec ⊢
    simp only [downloadAttachments, hm]
    simpa [freshMeta] using hspec
  | some m =>
    have htr : trackedAttachments loc = m.attachments := by
      simp [trackedAttachments, hm]
    rw [htr] at hspec ⊢
    simp only [downloadAttachments, hm]
    simpa using hspec

/-- Witness for the claim C7 amended theorem. -/
theorem downloadAttachments_skip_rule_witness :
    ((candidateInfos remoteC7 (filterSetOf none)).map
      (fun i => i.title)).Nodup ∧
    ((downloadAttachments identitySha 1 "p" remoteC7 locC7
        none).2.downloaded =
      ((candidateInfos remoteC7 (filterSetOf none)).filter
        (fun i => !(skipEligible (trackedAttachments locC7)
          locC7.attachmentFiles i))).map (fun i => i.title) ∧
     (downloadAttachments identitySha 1 "p" remoteC7 locC7
        none).2.skipped =
      ((candidateInfos remoteC7 (filterSetOf none)).filter
        (fun i => skipEligible (trackedAttachments locC7)
          locC7.attachmentFiles i)).map (fun i => i.title)) :=
  ⟨by decide,
    downloadAttachments_skip_rule identitySha 1 "p" remoteC7 locC7 none
      (by decide)⟩

/-! ### Claim C9 -/

/-- Claim C9 counterexample: a field named apiToken, whose key contains the
    credential-like substring token, survives unmasked when nested inside an
    array, refuting masking at every nesting depth: maskSensitive copies the
    array verbatim and the secret value is not the redaction marker. -/
theorem maskSensitive_misses_array_nested :
    isSensitiveKey "apiToken" = true ∧
    maskSensitive (.cons "detail" (Json.arr (.cons (Json.obj
        (.cons "apiToken" (Json.str "secret") .nil)) .nil)) .nil) =
      .cons "detail" (Json.arr (.cons (Json.obj
        (.cons "apiToken" (Json.str "secret") .nil)) .nil)) .nil ∧
    ("secret" : String) ≠ maskMarker :=
  ⟨by decide, rfl, by decide⟩

/-- Claim C9 amended: the log writer masks every field whose key contains a
    credential-like substring at every nesting depth reachable through
    chains of non-array object values, replacing the value with the fixed
    redaction marker and leaving every other field unchanged; values inside
    arrays are copied verbatim. MaskRel states this input-output relation in
    the words of the amended claim and maskSensitive satisfies it for every
    event record. -/
theorem maskSensitive_masks_object_chains :
    (e : JsonFields) → MaskRel e (maskSensitive e)
  | .nil => MaskRel.nil
  | .cons k v rest => by
    have htail := maskSensitive_masks_object_chains rest
    cases v with
    | str s =>
      by_cases hk : isSensitiveKey k = true
      · simp only [maskSensitive, if_pos hk]
        exact MaskRel.sens hk htail
      · have hkf : isSensitiveKey k = false := Bool.eq_false_iff.mpr hk
        simp only [maskSensitive, if_neg hk]
        exact MaskRel.plain hkf (fun fs h => Json.noConfusion h) htail
    | num n =>
      by_cases hk : isSensitiveKey k = true
      · simp only [maskSensitive, if_pos hk]
        exact MaskRel.sens hk htail
      · have hkf : isSensitiveKey k = false := Bool.eq_false_iff.mpr hk
        simp only [maskSensitive, if_neg hk]
        exact MaskRel.plain hkf (fun fs h => Json.noConfusion h) htail
    | bool b =>
      by_cases hk : isSensitiveKey k = true
      · simp only [maskSensitive, if_pos hk]
        exact MaskRel.sens hk htail
      · have hkf : isSensitiveKey k = false := Bool.eq_false_iff.mpr hk
        simp only [maskSensitive, if_neg hk]
        exact MaskRel.plain hkf (fun fs h => Json.noConfusion h) htail
    | null =>
      by_cases hk : isSensitiveKey k = true
      · simp only [maskSensitive, if_pos hk]
        exact MaskRel.sens hk htail
      · have hkf : isSensitiveKey k = false := Bool.eq_false_iff.mpr hk
        simp only [maskSensitive, if_neg hk]
        exact MaskRel.plain hkf (fun fs h => Json.noConfusion h) htail
    | arr xs =>
      by_cases hk : isSensitiveKey k = true
      · simp only [maskSensitive, if_pos hk]
        exact MaskRel.sens hk htail
      · have hkf : isSensitiveKey k = false := Bool.eq_false_iff.mpr hk
        simp only [maskSensitive, if_neg hk]
        exact MaskRel.plain hkf (fun fs h => Json.noConfusion h) htail
    | obj fs =>
      have hfs := maskSensitive_masks_object_chains fs
      by_cases hk : isSensitiveKey k = true
      · simp only [maskSensitive, if_pos hk]
        exact MaskRel.sens hk htail
      · have hkf : isSensitiveKey k = false := Bool.eq_false_iff.mpr hk
        simp only [maskSensitive, if_neg hk]
        exact MaskRel.objField hkf hfs htail


end ConfluenceSync
